import Mathlib

/-!
Shallow embedding of the two rate limiters of this repository:
the class `SlidingWindowRateLimiter` from `sliding_window_rate_limiter.py`
and the class `ThrottlingRateLimiter` from `throttling_rate_limiter.py`.

Timestamps (Python floats produced by `time.time()`) are modelled as
rationals; each public operation receives the current time `now`
explicitly.  The mutable `history` dict is modelled as a function from
user ids into `Option`; a Python `KeyError` is modelled by the operation
returning `none`.  Operations that mutate the limiter return the new
limiter state next to their result.
-/

abbrev UserId := String

abbrev SWHist := UserId → Option (List ℚ)

/-- updateHist h u v is the mapping h with the entry of u set to v
(Python dict assignment, or deletion when v is none). -/
def updateHist (h : SWHist) (u : UserId) (v : Option (List ℚ)) : SWHist :=
  fun x => if x = u then v else h x

/-- Embedding of the class `SlidingWindowRateLimiter`: configuration
`window_size` and `max_requests`, and the per-user timestamp deques
(oldest first). -/
structure SlidingWindowRateLimiter where
  window_size : ℚ
  max_requests : ℕ
  history : SWHist

namespace SlidingWindowRateLimiter

/-- Embedding of `_cleanup_window`.  The while-loop pops stale
timestamps from the front of the deque while the oldest one is strictly
older than `now - window_size`; afterwards the source evaluates
`self.history[user_id]` without a membership guard, which raises
`KeyError` (modelled as `none`) when the user has no entry, and deletes
the entry when the remaining deque is empty. -/
def cleanup_window (s : SlidingWindowRateLimiter) (u : UserId) (now : ℚ) :
    Option SWHist :=
  let h1 : SWHist :=
    match s.history u with
    | some l =>
        updateHist s.history u
          (some (l.dropWhile (fun t => decide (t < now - s.window_size))))
    | none => s.history
  match h1 u with
  | none => none
  | some l => if l.isEmpty then some (updateHist h1 u none) else some h1

/-- Embedding of `SlidingWindowRateLimiter.can_send_message`: cleanup
first (its `KeyError` propagates), then admit when the user is absent
or the surviving count is below `max_requests`. -/
def can_send_message (s : SlidingWindowRateLimiter) (u : UserId) (now : ℚ) :
    Option (Bool × SlidingWindowRateLimiter) :=
  match s.cleanup_window u now with
  | none => none
  | some h =>
    match h u with
    | some l => some (decide (l.length < s.max_requests), { s with history := h })
    | none => some (true, { s with history := h })

/-- Embedding of `SlidingWindowRateLimiter.record_message`: run the
admission check; on admission append `now` to the user's deque
(creating it when absent) and return true, otherwise return false. -/
def record_message (s : SlidingWindowRateLimiter) (u : UserId) (now : ℚ) :
    Option (Bool × SlidingWindowRateLimiter) :=
  match s.can_send_message u now with
  | none => none
  | some (true, s₁) =>
      some (true,
        { s₁ with history := updateHist s₁.history u (some ((s₁.history u).getD [] ++ [now])) })
  | some (false, s₁) => some (false, s₁)

/-- Embedding of `SlidingWindowRateLimiter.time_until_next_allowed`:
cleanup first (its `KeyError` propagates), then report
`max(0, window_size - (now - newest))` from the newest surviving
timestamp (`history[user_id][-1]`), or 0 when the user has no entry. -/
def time_until_next_allowed (s : SlidingWindowRateLimiter) (u : UserId) (now : ℚ) :
    Option (ℚ × SlidingWindowRateLimiter) :=
  match s.cleanup_window u now with
  | none => none
  | some h =>
    match h u with
    | some l =>
      match l.getLast? with
      | some x => some (max 0 (s.window_size - (now - x)), { s with history := h })
      | none => none
    | none => some (0, { s with history := h })

end SlidingWindowRateLimiter

/-- Action of `_cleanup_window` on the single affected dict entry. -/
def cleanupEntry (w : ℚ) (now : ℚ) : Option (List ℚ) → Option (Option (List ℚ))
  | none => none
  | some l =>
    let l2 := l.dropWhile (fun t => decide (t < now - w))
    if l2.isEmpty then some none else some (some l2)

/-- Action of `can_send_message` on the single affected dict entry. -/
def canSendEntry (w : ℚ) (m : ℕ) (now : ℚ) (e : Option (List ℚ)) :
    Option (Bool × Option (List ℚ)) :=
  (cleanupEntry w now e).map (fun e2 =>
    match e2 with
    | some l => (decide (l.length < m), e2)
    | none => (true, e2))

/-- Action of `record_message` on the single affected dict entry. -/
def recordEntry (w : ℚ) (m : ℕ) (now : ℚ) (e : Option (List ℚ)) :
    Option (Bool × Option (List ℚ)) :=
  (canSendEntry w m now e).map (fun p =>
    if p.1 then (true, some (p.2.getD [] ++ [now])) else (false, p.2))

/-- Action of `time_until_next_allowed` on the single affected dict entry. -/
def timeUntilEntry (w : ℚ) (now : ℚ) (e : Option (List ℚ)) :
    Option (ℚ × Option (List ℚ)) :=
  (cleanupEntry w now e).bind (fun e2 =>
    match e2 with
    | some l => (l.getLast?).map (fun x => (max 0 (w - (now - x)), e2))
    | none => some (0, e2))

/-- A freshly constructed `SlidingWindowRateLimiter(window_size=10,
max_requests=1)`: its history dict is empty. -/
def freshSW : SlidingWindowRateLimiter := ⟨10, 1, fun _ => none⟩

/-- A sliding-window limiter state in which user "A" has the in-window
timestamps 0 and 4 (window 10, capacity 2). -/
def swDemo : SlidingWindowRateLimiter :=
  ⟨10, 2, updateHist (fun _ => none) "A" (some [0, 4])⟩

/-- The state produced from swDemo by the eviction pass of
`can_send_message` at time 5 (nothing is stale, so the deque of "A" is
rewritten unchanged). -/
def swDemoClean : SlidingWindowRateLimiter :=
  { swDemo with history := updateHist swDemo.history "A" (some [0, 4]) }

/-- Embedding of the class `ThrottlingRateLimiter`: configuration
`min_interval` and the per-user last-admitted timestamp. -/
structure ThrottlingRateLimiter where
  min_interval : ℚ
  history : UserId → Option ℚ

/-- updateTHist h u t is the mapping h with the entry of u set to t
(Python dict assignment). -/
def updateTHist (h : UserId → Option ℚ) (u : UserId) (t : ℚ) :
    UserId → Option ℚ :=
  fun x => if x = u then some t else h x

namespace ThrottlingRateLimiter

/-- Embedding of `ThrottlingRateLimiter.can_send_message`: true when
the user has no entry or at least `min_interval` has elapsed since the
last admitted message. -/
def can_send_message (s : ThrottlingRateLimiter) (u : UserId) (now : ℚ) : Bool :=
  match s.history u with
  | some last => decide (s.min_interval ≤ now - last)
  | none => true

/-- Embedding of `ThrottlingRateLimiter.record_message`: on admission
overwrite the user's last-admitted timestamp with `now`. -/
def record_message (s : ThrottlingRateLimiter) (u : UserId) (now : ℚ) :
    Bool × ThrottlingRateLimiter :=
  if s.can_send_message u now then
    (true, { s with history := updateTHist s.history u now })
  else (false, s)

/-- Embedding of `ThrottlingRateLimiter.time_until_next_allowed`:
`max(0, min_interval - (now - last))`, or 0 for an unseen user. -/
def time_until_next_allowed (s : ThrottlingRateLimiter) (u : UserId) (now : ℚ) : ℚ :=
  match s.history u with
  | some last => max 0 (s.min_interval - (now - last))
  | none => 0

end ThrottlingRateLimiter

/-- A freshly constructed `ThrottlingRateLimiter(min_interval=10.0)`. -/
def freshTR : ThrottlingRateLimiter := ⟨10, fun _ => none⟩

/-- A throttling limiter state in which user "B" last sent at time 0
(min_interval 10). -/
def trDemo : ThrottlingRateLimiter :=
  ⟨10, updateTHist (fun _ => none) "B" 0⟩

/-- runRecords u s ts runs one `record_message` call for user u at each
time of ts in order, threading the limiter state; a call that raises
(`none`) leaves the state unchanged, as the source mutates nothing
before the `KeyError`. -/
def runRecords (u : UserId) : SlidingWindowRateLimiter → List ℚ → List (Option Bool)
  | _, [] => []
  | s, t :: ts =>
    match s.record_message u t with
    | none => none :: runRecords u s ts
    | some (b, s₂) => some b :: runRecords u s₂ ts

/-- The three public operations of the sliding-window limiter. -/
inductive SWOp where
  | canSend : SWOp
  | record : SWOp
  | timeUntil : SWOp

/-- swStep s (op, u, t) performs one public sliding-window operation
for user u at time t, returning the observed result (`Sum.inl` a
boolean admission answer, `Sum.inr` a reported wait, `none` a raised
`KeyError`) and the resulting limiter state. -/
def swStep (s : SlidingWindowRateLimiter) :
    SWOp × UserId × ℚ → Option (Bool ⊕ ℚ) × SlidingWindowRateLimiter
  | (SWOp.canSend, u, t) =>
    match s.can_send_message u t with
    | none => (none, s)
    | some (b, s₂) => (some (Sum.inl b), s₂)
  | (SWOp.record, u, t) =>
    match s.record_message u t with
    | none => (none, s)
    | some (b, s₂) => (some (Sum.inl b), s₂)
  | (SWOp.timeUntil, u, t) =>
    match s.time_until_next_allowed u t with
    | none => (none, s)
    | some (q, s₂) => (some (Sum.inr q), s₂)

/-- swRunOut s ops runs a list of sliding-window operations and returns
each operation's result, tagged with the user that issued it. -/
def swRunOut (s : SlidingWindowRateLimiter) :
    List (SWOp × UserId × ℚ) → List (UserId × Option (Bool ⊕ ℚ))
  | [] => []
  | o :: os => (o.2.1, (swStep s o).1) :: swRunOut (swStep s o).2 os

/-- swRunState s ops is the limiter state after running a list of
sliding-window operations. -/
def swRunState (s : SlidingWindowRateLimiter) :
    List (SWOp × UserId × ℚ) → SlidingWindowRateLimiter
  | [] => s
  | o :: os => swRunState (swStep s o).2 os

/-- The three public operations of the throttling limiter. -/
inductive TROp where
  | canSend : TROp
  | record : TROp
  | timeUntil : TROp

/-- trStep s (op, u, t) performs one public throttling operation for
user u at time t (none of them can raise). -/
def trStep (s : ThrottlingRateLimiter) :
    TROp × UserId × ℚ → (Bool ⊕ ℚ) × ThrottlingRateLimiter
  | (TROp.canSend, u, t) => (Sum.inl (s.can_send_message u t), s)
  | (TROp.record, u, t) =>
    (Sum.inl (s.record_message u t).1, (s.record_message u t).2)
  | (TROp.timeUntil, u, t) => (Sum.inr (s.time_until_next_allowed u t), s)

/-- trRunOut s ops runs a list of throttling operations and returns
each operation's result, tagged with the user that issued it. -/
def trRunOut (s : ThrottlingRateLimiter) :
    List (TROp × UserId × ℚ) → List (UserId × (Bool ⊕ ℚ))
  | [] => []
  | o :: os => (o.2.1, (trStep s o).1) :: trRunOut (trStep s o).2 os

/-- trRunState s ops is the limiter state after running a list of
throttling operations. -/
def trRunState (s : ThrottlingRateLimiter) :
    List (TROp × UserId × ℚ) → ThrottlingRateLimiter
  | [] => s
  | o :: os => trRunState (trStep s o).2 os

/-- Reachable t s holds when the sliding-window limiter state s can be
produced at time t from a freshly constructed limiter by public
operations executed at non-decreasing clock readings. -/
inductive Reachable : ℚ → SlidingWindowRateLimiter → Prop where
  | init (w : ℚ) (m : ℕ) (t : ℚ) : Reachable t ⟨w, m, fun _ => none⟩
  | tick {t : ℚ} {s : SlidingWindowRateLimiter} (t₂ : ℚ) :
      Reachable t s → t ≤ t₂ → Reachable t₂ s
  | canSend {t : ℚ} {s : SlidingWindowRateLimiter} (u : UserId) (t₂ : ℚ)
      (b : Bool) (s₂ : SlidingWindowRateLimiter) :
      Reachable t s → t ≤ t₂ → s.can_send_message u t₂ = some (b, s₂) →
      Reachable t₂ s₂
  | record {t : ℚ} {s : SlidingWindowRateLimiter} (u : UserId) (t₂ : ℚ)
      (b : Bool) (s₂ : SlidingWindowRateLimiter) :
      Reachable t s → t ≤ t₂ → s.record_message u t₂ = some (b, s₂) →
      Reachable t₂ s₂
  | timeUntil {t : ℚ} {s : SlidingWindowRateLimiter} (u : UserId) (t₂ : ℚ)
      (q : ℚ) (s₂ : SlidingWindowRateLimiter) :
      Reachable t s → t ≤ t₂ → s.time_until_next_allowed u t₂ = some (q, s₂) →
      Reachable t₂ s₂

/-- GoodEntry t e: the optional deque e is either absent or non-empty,
sorted in non-decreasing timestamp order, with all timestamps at most
t. -/
def GoodEntry (t : ℚ) (e : Option (List ℚ)) : Prop :=
  ∀ l, e = some l → l ≠ [] ∧ l.Sorted (fun a b => a ≤ b) ∧ ∀ x ∈ l, x ≤ t

/-- GoodHist t s: every deque in the history dict is non-empty, sorted
in non-decreasing timestamp order, and contains only timestamps that
are at most t. -/
def GoodHist (t : ℚ) (s : SlidingWindowRateLimiter) : Prop :=
  ∀ u, GoodEntry t (s.history u)

/-- Action of one public sliding-window operation on the single dict
entry it touches: the observed result, and the new value of that entry
(unchanged when the operation raises). -/
def swEntryStep (op : SWOp) (w : ℚ) (m : ℕ) (t : ℚ) (e : Option (List ℚ)) :
    Option (Bool ⊕ ℚ) × Option (List ℚ) :=
  match op with
  | SWOp.canSend =>
    match canSendEntry w m t e with
    | none => (none, e)
    | some (b, e₂) => (some (Sum.inl b), e₂)
  | SWOp.record =>
    match recordEntry w m t e with
    | none => (none, e)
    | some (b, e₂) => (some (Sum.inl b), e₂)
  | SWOp.timeUntil =>
    match timeUntilEntry w t e with
    | none => (none, e)
    | some (q, e₂) => (some (Sum.inr q), e₂)

/-- updateTOpt h u e is the mapping h with the entry of u set to the
optional value e. -/
def updateTOpt (h : UserId → Option ℚ) (u : UserId) (e : Option ℚ) :
    UserId → Option ℚ :=
  fun x => if x = u then e else h x

/-- Action of the throttling `can_send_message` on the single dict
entry it reads. -/
def trCanSendEntry (mi t : ℚ) (e : Option ℚ) : Bool :=
  match e with
  | some last => decide (mi ≤ t - last)
  | none => true

/-- Action of the throttling `time_until_next_allowed` on the single
dict entry it reads. -/
def trTimeUntilEntry (mi t : ℚ) (e : Option ℚ) : ℚ :=
  match e with
  | some last => max 0 (mi - (t - last))
  | none => 0

/-- Action of one public throttling operation on the single dict entry
it touches. -/
def trEntryStep (op : TROp) (mi t : ℚ) (e : Option ℚ) : (Bool ⊕ ℚ) × Option ℚ :=
  match op with
  | TROp.canSend => (Sum.inl (trCanSendEntry mi t e), e)
  | TROp.record =>
      if trCanSendEntry mi t e then (Sum.inl true, some t) else (Sum.inl false, e)
  | TROp.timeUntil => (Sum.inr (trTimeUntilEntry mi t e), e)

theorem updateHist_apply_same (h : SWHist) (u : UserId) (v : Option (List ℚ)) :
    updateHist h u v u = v := by
  simp [updateHist]

theorem updateHist_apply_other (h : SWHist) (u x : UserId) (v : Option (List ℚ))
    (hx : x ≠ u) : updateHist h u v x = h x := by
  simp [updateHist, hx]

theorem updateHist_collapse (h : SWHist) (u : UserId) (v₁ v₂ : Option (List ℚ)) :
    updateHist (updateHist h u v₁) u v₂ = updateHist h u v₂ := by
  funext x
  by_cases hx : x = u <;> simp [updateHist, hx]

theorem updateTHist_apply_same (h : UserId → Option ℚ) (u : UserId) (t : ℚ) :
    updateTHist h u t u = some t := by
  simp [updateTHist]

theorem updateTHist_apply_other (h : UserId → Option ℚ) (u x : UserId) (t : ℚ)
    (hx : x ≠ u) : updateTHist h u t x = h x := by
  simp [updateTHist, hx]

theorem cleanup_char (s : SlidingWindowRateLimiter) (u : UserId) (now : ℚ) :
    s.cleanup_window u now =
      (cleanupEntry s.window_size now (s.history u)).map
        (fun e => updateHist s.history u e) := by
  cases hsu : s.history u with
  | none =>
      simp [SlidingWindowRateLimiter.cleanup_window, cleanupEntry, hsu]
  | some l =>
      simp only [SlidingWindowRateLimiter.cleanup_window, cleanupEntry, hsu,
        updateHist_apply_same]
      split <;> simp_all [updateHist_collapse]

theorem can_send_char (s : SlidingWindowRateLimiter) (u : UserId) (now : ℚ) :
    s.can_send_message u now =
      (canSendEntry s.window_size s.max_requests now (s.history u)).map
        (fun p => (p.1, { s with history := updateHist s.history u p.2 })) := by
  rw [SlidingWindowRateLimiter.can_send_message, cleanup_char, canSendEntry]
  cases he : cleanupEntry s.window_size now (s.history u) with
  | none => simp
  | some e => cases e <;> simp [updateHist_apply_same]

theorem record_char (s : SlidingWindowRateLimiter) (u : UserId) (now : ℚ) :
    s.record_message u now =
      (recordEntry s.window_size s.max_requests now (s.history u)).map
        (fun p => (p.1, { s with history := updateHist s.history u p.2 })) := by
  rw [SlidingWindowRateLimiter.record_message, can_send_char, recordEntry]
  cases hc : canSendEntry s.window_size s.max_requests now (s.history u) with
  | none => simp
  | some p =>
      obtain ⟨b, e⟩ := p
      cases b with
      | true => simp [updateHist_apply_same, updateHist_collapse]
      | false => simp

theorem timeUntil_char (s : SlidingWindowRateLimiter) (u : UserId) (now : ℚ) :
    s.time_until_next_allowed u now =
      (timeUntilEntry s.window_size now (s.history u)).map
        (fun p => (p.1, { s with history := updateHist s.history u p.2 })) := by
  rw [SlidingWindowRateLimiter.time_until_next_allowed, cleanup_char, timeUntilEntry]
  cases he : cleanupEntry s.window_size now (s.history u) with
  | none => simp
  | some e =>
      cases e with
      | none => simp [updateHist_apply_same]
      | some l =>
          cases hgl : l.getLast? <;> simp [updateHist_apply_same, hgl]

/-- C1: the claim says no operation of either limiter may raise for an
unknown user id, but on a freshly constructed sliding-window limiter
the unguarded `self.history[user_id]` in `_cleanup_window` raises
`KeyError` (modelled as `none`) for every public operation, so the
sliding-window limiter violates the claim on every unseen user. -/
theorem claim_C1 :
    freshSW.cleanup_window "A" 0 = none ∧
    freshSW.can_send_message "A" 0 = none ∧
    freshSW.record_message "A" 0 = none ∧
    freshSW.time_until_next_allowed "A" 0 = none :=
  ⟨rfl, rfl, rfl, rfl⟩

/-- C2: the claim says `can_send_message` returns true for a user with
no recorded history; instead the code raises `KeyError` (modelled as
`none`) for a user absent from the history dict. -/
theorem claim_C2 : freshSW.can_send_message "A" 3 = none :=
  rfl

/-- C5: on a user with surviving history, `time_until_next_allowed`
does return `max 0 (window_size - (now - newest))` — here
`max 0 (10 - (5 - 4)) = 9`, measured from the newest timestamp 4 — but
for a user with no history entry the claim requires 0 while the code
raises `KeyError` (modelled as `none`). -/
theorem claim_C5 :
    (swDemo.time_until_next_allowed "A" 5).map (fun p => p.1) = some 9 ∧
    freshSW.time_until_next_allowed "A" 5 = none := by
  constructor
  · rw [timeUntil_char]
    norm_num [timeUntilEntry, cleanupEntry, swDemo, updateHist, List.dropWhile]
  · rfl

/-- C4: `record_message` is determined by the `can_send_message` check:
when the check answers true it appends `now` to the user's deque
(creating it when absent) and returns true; when the check answers
false it returns false and the only state change is the eviction the
check itself performed (the intermediate state is exactly the cleanup
result). -/
theorem claim_C4 (s : SlidingWindowRateLimiter) (u : UserId) (now : ℚ)
    (b : Bool) (s₁ : SlidingWindowRateLimiter)
    (hc : s.can_send_message u now = some (b, s₁)) :
    (∃ h, s.cleanup_window u now = some h ∧ s₁ = { s with history := h }) ∧
    s.record_message u now =
      some (b,
        if b then
          { s₁ with history := updateHist s₁.history u (some ((s₁.history u).getD [] ++ [now])) }
        else s₁) := by
  constructor
  · rw [SlidingWindowRateLimiter.can_send_message] at hc
    split at hc
    · exact absurd hc (by simp)
    · rename_i h hcw
      split at hc <;>
        · simp only [Option.some.injEq, Prod.mk.injEq] at hc
          exact ⟨h, hcw, hc.2.symm⟩
  · rw [SlidingWindowRateLimiter.record_message, hc]
    cases b with
    | true => simp
    | false => simp

/-- C4 witness: a concrete denied call, `record_message` on swDemo for
user "A" at time 5 returns false and leaves only the eviction pass's
state change. -/
theorem claim_C4_witness :
    (∃ h, swDemo.cleanup_window "A" 5 = some h ∧ swDemoClean = { swDemo with history := h }) ∧
    swDemo.record_message "A" 5 =
      some (false,
        if false then
          { swDemoClean with
              history := updateHist swDemoClean.history "A" (some ((swDemoClean.history "A").getD [] ++ [5])) }
        else swDemoClean) :=
  claim_C4 swDemo "A" 5 false swDemoClean (by
    rw [can_send_char]
    norm_num [canSendEntry, cleanupEntry, swDemo, swDemoClean, updateHist, List.dropWhile])

/-- C7: the throttling `can_send_message` answers true exactly when the
user has no prior recorded event or at least `min_interval` has elapsed
since it, and the boundary is inclusive: a `record_message` exactly
`min_interval` after the previous successful one succeeds. -/
theorem claim_C7 (s : ThrottlingRateLimiter) (u : UserId) (now : ℚ) :
    (s.can_send_message u now = true ↔
      s.history u = none ∨
        ∃ last, s.history u = some last ∧ s.min_interval ≤ now - last) ∧
    (∀ s₂, s.record_message u now = (true, s₂) →
      (s₂.record_message u (now + s.min_interval)).1 = true) := by
  constructor
  · cases hsu : s.history u with
    | none => simp [ThrottlingRateLimiter.can_send_message, hsu]
    | some last => simp [ThrottlingRateLimiter.can_send_message, hsu]
  · intro s₂ hrec
    rw [ThrottlingRateLimiter.record_message] at hrec
    by_cases hc : s.can_send_message u now = true
    · rw [if_pos hc] at hrec
      injection hrec with h1 h2
      subst h2
      simp [ThrottlingRateLimiter.record_message, ThrottlingRateLimiter.can_send_message,
        updateTHist_apply_same]
    · rw [if_neg hc] at hrec
      injection hrec with h1 h2
      exact absurd h1 (by simp)

/-- C7 witness: on a fresh throttling limiter, user "B" records at time
0, and recording again exactly `min_interval` later succeeds. -/
theorem claim_C7_witness :
    ((freshTR.record_message "B" 0).2.record_message "B" (0 + freshTR.min_interval)).1 = true :=
  (claim_C7 freshTR "B" 0).2 (freshTR.record_message "B" 0).2 rfl

/-- C8: the throttling `time_until_next_allowed` reports
`max 0 (min_interval - (now - last))` for a seen user and 0 for an
unseen one, and the reported wait is never negative. -/
theorem claim_C8 (s : ThrottlingRateLimiter) (u : UserId) (now : ℚ) :
    (∀ last, s.history u = some last →
      s.time_until_next_allowed u now = max 0 (s.min_interval - (now - last))) ∧
    (s.history u = none → s.time_until_next_allowed u now = 0) ∧
    0 ≤ s.time_until_next_allowed u now := by
  cases hsu : s.history u with
  | none =>
      refine ⟨?_, ?_, ?_⟩ <;>
        simp [ThrottlingRateLimiter.time_until_next_allowed, hsu]
  | some last =>
      refine ⟨?_, ?_, ?_⟩ <;>
        simp [ThrottlingRateLimiter.time_until_next_allowed, hsu]

/-- C8 witness: for user "B" of trDemo (last event at 0, interval 10),
the reported wait at time 3 is `max 0 (10 - (3 - 0))`. -/
theorem claim_C8_witness :
    trDemo.time_until_next_allowed "B" 3 = max 0 (trDemo.min_interval - (3 - 0)) :=
  (claim_C8 trDemo "B" 3).1 0 rfl

/-- C10: for the throttling limiter, at any one instant
`time_until_next_allowed` reports 0 exactly when `can_send_message`
answers true (both operations are embedded as pure functions because
the source methods perform no mutation). -/
theorem claim_C10 (s : ThrottlingRateLimiter) (u : UserId) (now : ℚ) :
    s.time_until_next_allowed u now = 0 ↔ s.can_send_message u now = true := by
  cases hsu : s.history u with
  | none =>
      simp [ThrottlingRateLimiter.time_until_next_allowed,
        ThrottlingRateLimiter.can_send_message, hsu]
  | some last =>
      simp [ThrottlingRateLimiter.time_until_next_allowed,
        ThrottlingRateLimiter.can_send_message, hsu, max_eq_left_iff, sub_nonpos]

/-- C10 witness: the equivalence evaluated on trDemo for user "B" at
time 3. -/
theorem claim_C10_witness :
    trDemo.time_until_next_allowed "B" 3 = 0 ↔ trDemo.can_send_message "B" 3 = true :=
  claim_C10 trDemo "B" 3

theorem dropWhile_lower (c : ℚ) (l : List ℚ) (hl : l.Sorted (fun a b => a ≤ b)) :
    ∀ x ∈ l.dropWhile (fun t => decide (t < c)), c ≤ x := by
  induction l with
  | nil => simp
  | cons a l ih =>
      rw [List.dropWhile_cons]
      by_cases ha : a < c
      · simpa [ha] using ih hl.of_cons
      · intro x hx
        simp only [ha, decide_eq_true_eq, if_neg, decide_eq_false ha] at hx
        simp only [Bool.false_eq_true, if_false] at hx
        rcases List.mem_cons.mp hx with rfl | hx
        · exact le_of_not_lt ha
        · exact le_trans (le_of_not_lt ha) (List.rel_of_sorted_cons hl x hx)

theorem goodEntry_mono (t t₂ : ℚ) (e : Option (List ℚ)) (ht : t ≤ t₂)
    (hg : GoodEntry t e) : GoodEntry t₂ e := by
  intro l hl
  obtain ⟨h1, h2, h3⟩ := hg l hl
  exact ⟨h1, h2, fun x hx => le_trans (h3 x hx) ht⟩

theorem goodEntry_getD (t : ℚ) (e : Option (List ℚ)) (hg : GoodEntry t e) :
    (e.getD []).Sorted (fun a b => a ≤ b) ∧ ∀ x ∈ e.getD [], x ≤ t := by
  cases e with
  | none => simp [List.Sorted]
  | some l =>
      obtain ⟨h1, h2, h3⟩ := hg l rfl
      exact ⟨h2, h3⟩

theorem cleanupEntry_some_cases (w now : ℚ) (l : List ℚ) (e : Option (List ℚ))
    (h : cleanupEntry w now (some l) = some e) :
    (e = none ∧ l.dropWhile (fun x => decide (x < now - w)) = []) ∨
      (e = some (l.dropWhile (fun x => decide (x < now - w))) ∧
        l.dropWhile (fun x => decide (x < now - w)) ≠ []) := by
  by_cases he : (l.dropWhile (fun x => decide (x < now - w))).isEmpty
  · left
    simp [cleanupEntry, he] at h
    exact ⟨h.symm, List.isEmpty_iff.mp he⟩
  · right
    simp [cleanupEntry, he] at h
    exact ⟨h.symm, by simpa [List.isEmpty_iff] using he⟩

theorem cleanupEntry_good (t w now : ℚ) (e e₂ : Option (List ℚ))
    (hg : GoodEntry t e) (h : cleanupEntry w now e = some e₂) : GoodEntry t e₂ := by
  cases e with
  | none => simp [cleanupEntry] at h
  | some l =>
      obtain ⟨hne, hs, hle⟩ := hg l rfl
      rcases cleanupEntry_some_cases w now l e₂ h with ⟨he₂, hdw⟩ | ⟨he₂, hne₂⟩
      · subst he₂
        intro l₂ hl₂
        cases hl₂
      · subst he₂
        intro l₂ hl₂
        injection hl₂ with hl₂
        subst hl₂
        refine ⟨hne₂, ?_, ?_⟩
        · exact List.Pairwise.sublist (List.dropWhile_sublist _) hs
        · intro x hx
          exact hle x ((List.dropWhile_sublist _).subset hx)

theorem cleanupEntry_lower (w now : ℚ) (l : List ℚ) (l₂ : List ℚ)
    (hs : l.Sorted (fun a b => a ≤ b))
    (h : cleanupEntry w now (some l) = some (some l₂)) :
    ∀ x ∈ l₂, now - w ≤ x := by
  rcases cleanupEntry_some_cases w now l (some l₂) h with ⟨he₂, hdw⟩ | ⟨he₂, hne₂⟩
  · cases he₂
  · injection he₂ with he₂
    subst he₂
    exact dropWhile_lower (now - w) l hs

theorem canSendEntry_some (w : ℚ) (m : ℕ) (now : ℚ) (e : Option (List ℚ))
    (p : Bool × Option (List ℚ)) (h : canSendEntry w m now e = some p) :
    cleanupEntry w now e = some p.2 := by
  unfold canSendEntry at h
  cases hce : cleanupEntry w now e with
  | none => rw [hce] at h; cases h
  | some e₂ =>
      rw [hce] at h
      simp only [Option.map_some', Option.some.injEq] at h
      cases e₂ with
      | none => subst h; rfl
      | some l => subst h; rfl

theorem recordEntry_some (w : ℚ) (m : ℕ) (now : ℚ) (e : Option (List ℚ))
    (p : Bool × Option (List ℚ)) (h : recordEntry w m now e = some p) :
    ∃ q, canSendEntry w m now e = some q ∧
      p = if q.1 then (true, some (q.2.getD [] ++ [now])) else (false, q.2) := by
  unfold recordEntry at h
  cases hcs : canSendEntry w m now e with
  | none => rw [hcs] at h; cases h
  | some q =>
      rw [hcs] at h
      simp only [Option.map_some', Option.some.injEq] at h
      exact ⟨q, rfl, h.symm⟩

theorem timeUntilEntry_some (w now : ℚ) (e : Option (List ℚ))
    (p : ℚ × Option (List ℚ)) (h : timeUntilEntry w now e = some p) :
    cleanupEntry w now e = some p.2 := by
  unfold timeUntilEntry at h
  cases hce : cleanupEntry w now e with
  | none => rw [hce] at h; cases h
  | some e₂ =>
      rw [hce] at h
      simp only [Option.some_bind] at h
      cases e₂ with
      | none =>
          simp only [Option.some.injEq] at h
          rw [← h]
      | some l =>
          dsimp only at h
          cases hgl : l.getLast? with
          | none => rw [hgl] at h; cases h
          | some x =>
              rw [hgl] at h
              simp only [Option.map_some', Option.some.injEq] at h
              rw [← h]

theorem can_send_good (t t₂ : ℚ) (s s₂ : SlidingWindowRateLimiter) (u : UserId) (b : Bool)
    (hg : GoodHist t s) (ht : t ≤ t₂)
    (hop : s.can_send_message u t₂ = some (b, s₂)) : GoodHist t₂ s₂ := by
  rw [can_send_char] at hop
  cases hce : canSendEntry s.window_size s.max_requests t₂ (s.history u) with
  | none => rw [hce] at hop; cases hop
  | some p =>
      rw [hce] at hop
      simp only [Option.map_some', Option.some.injEq, Prod.mk.injEq] at hop
      obtain ⟨hb, hs₂⟩ := hop
      subst hs₂
      intro v
      dsimp only
      by_cases hv : v = u
      · subst hv
        rw [updateHist_apply_same]
        exact goodEntry_mono t t₂ _ ht
          (cleanupEntry_good t _ t₂ _ _ (hg v) (canSendEntry_some _ _ _ _ _ hce))
      · rw [updateHist_apply_other _ _ _ _ hv]
        exact goodEntry_mono t t₂ _ ht (hg v)

theorem record_good (t t₂ : ℚ) (s s₂ : SlidingWindowRateLimiter) (u : UserId) (b : Bool)
    (hg : GoodHist t s) (ht : t ≤ t₂)
    (hop : s.record_message u t₂ = some (b, s₂)) : GoodHist t₂ s₂ := by
  rw [record_char] at hop
  cases hre : recordEntry s.window_size s.max_requests t₂ (s.history u) with
  | none => rw [hre] at hop; cases hop
  | some p =>
      rw [hre] at hop
      simp only [Option.map_some', Option.some.injEq, Prod.mk.injEq] at hop
      obtain ⟨hb, hs₂⟩ := hop
      subst hs₂
      obtain ⟨q, hq, hp⟩ := recordEntry_some _ _ _ _ _ hre
      have hq2 : GoodEntry t₂ q.2 :=
        goodEntry_mono t t₂ _ ht
          (cleanupEntry_good t _ t₂ _ _ (hg u) (canSendEntry_some _ _ _ _ _ hq))
      intro v
      dsimp only
      by_cases hv : v = u
      · subst hv
        rw [updateHist_apply_same, hp]
        by_cases hq1 : q.1 = true
        · rw [if_pos hq1]
          intro l hl
          injection hl with hl
          subst hl
          obtain ⟨hsrt, hbound⟩ := goodEntry_getD t₂ q.2 hq2
          refine ⟨by simp, ?_, ?_⟩
          · refine List.pairwise_append.mpr ⟨hsrt, List.sorted_singleton t₂, ?_⟩
            intro a ha x hx
            rw [List.mem_singleton] at hx
            subst hx
            exact hbound a ha
          · intro x hx
            rcases List.mem_append.mp hx with hx | hx
            · exact hbound x hx
            · rw [List.mem_singleton] at hx
              exact le_of_eq hx
        · rw [if_neg hq1]
          exact hq2
      · rw [updateHist_apply_other _ _ _ _ hv]
        exact goodEntry_mono t t₂ _ ht (hg v)

theorem timeUntil_good (t t₂ : ℚ) (s s₂ : SlidingWindowRateLimiter) (u : UserId) (q : ℚ)
    (hg : GoodHist t s) (ht : t ≤ t₂)
    (hop : s.time_until_next_allowed u t₂ = some (q, s₂)) : GoodHist t₂ s₂ := by
  rw [timeUntil_char] at hop
  cases hce : timeUntilEntry s.window_size t₂ (s.history u) with
  | none => rw [hce] at hop; cases hop
  | some p =>
      rw [hce] at hop
      simp only [Option.map_some', Option.some.injEq, Prod.mk.injEq] at hop
      obtain ⟨hb, hs₂⟩ := hop
      subst hs₂
      intro v
      dsimp only
      by_cases hv : v = u
      · subst hv
        rw [updateHist_apply_same]
        exact goodEntry_mono t t₂ _ ht
          (cleanupEntry_good t _ t₂ _ _ (hg v) (timeUntilEntry_some _ _ _ _ hce))
      · rw [updateHist_apply_other _ _ _ _ hv]
        exact goodEntry_mono t t₂ _ ht (hg v)

theorem reachable_good (t : ℚ) (s : SlidingWindowRateLimiter)
    (h : Reachable t s) : GoodHist t s := by
  induction h with
  | init w m t =>
      intro u l hl
      cases hl
  | tick t₂ hr hle ih => exact fun u => goodEntry_mono _ t₂ _ hle (ih u)
  | canSend u t₂ b s₂ hr hle hop ih => exact can_send_good _ t₂ _ s₂ u b ih hle hop
  | record u t₂ b s₂ hr hle hop ih => exact record_good _ t₂ _ s₂ u b ih hle hop
  | timeUntil u t₂ q s₂ hr hle hop ih => exact timeUntil_good _ t₂ _ s₂ u q ih hle hop

/-- C6: in every state reachable from a fresh sliding-window limiter by
public operations at non-decreasing clock times, every deque present in
the history dict is non-empty (an emptied entry is deleted) and sorted
in non-decreasing timestamp order, and immediately after a successful
cleanup at time now every surviving timestamp of the cleaned user is at
least `now - window_size`. -/
theorem claim_C6 (t : ℚ) (s : SlidingWindowRateLimiter) (hr : Reachable t s) :
    (∀ u l, s.history u = some l → l ≠ [] ∧ l.Sorted (fun a b => a ≤ b)) ∧
    (∀ u now h l, s.cleanup_window u now = some h → h u = some l →
      ∀ x ∈ l, now - s.window_size ≤ x) := by
  have hg := reachable_good t s hr
  constructor
  · intro u l hl
    obtain ⟨h1, h2, h3⟩ := hg u l hl
    exact ⟨h1, h2⟩
  · intro u now h l hcw hu
    rw [cleanup_char] at hcw
    cases hce : cleanupEntry s.window_size now (s.history u) with
    | none => rw [hce] at hcw; cases hcw
    | some e =>
        rw [hce] at hcw
        simp only [Option.map_some', Option.some.injEq] at hcw
        subst hcw
        rw [updateHist_apply_same] at hu
        subst hu
        cases hsu : s.history u with
        | none => rw [hsu] at hce; simp [cleanupEntry] at hce
        | some l₀ =>
            rw [hsu] at hce
            obtain ⟨hne, hsort, hbound⟩ := hg u l₀ hsu
            exact cleanupEntry_lower _ now l₀ l hsort hce

/-- C6 witness: the invariant instantiated at the freshly constructed
limiter, which is reachable at time 0. -/
theorem claim_C6_witness :
    (∀ u l, freshSW.history u = some l → l ≠ [] ∧ l.Sorted (fun a b => a ≤ b)) ∧
    (∀ u now h l, freshSW.cleanup_window u now = some h → h u = some l →
      ∀ x ∈ l, now - freshSW.window_size ≤ x) :=
  claim_C6 0 freshSW (Reachable.init 10 1 0)

theorem updateHist_self (h : SWHist) (u : UserId) : updateHist h u (h u) = h := by
  funext x
  by_cases hx : x = u <;> simp [updateHist, hx]

theorem updateTOpt_self (h : UserId → Option ℚ) (u : UserId) :
    updateTOpt h u (h u) = h := by
  funext x
  by_cases hx : x = u <;> simp [updateTOpt, hx]

theorem updateTOpt_apply_same (h : UserId → Option ℚ) (u : UserId) (e : Option ℚ) :
    updateTOpt h u e u = e := by
  simp [updateTOpt]

theorem updateTOpt_apply_other (h : UserId → Option ℚ) (u x : UserId) (e : Option ℚ)
    (hx : x ≠ u) : updateTOpt h u e x = h x := by
  simp [updateTOpt, hx]

theorem updateTHist_eq_updateTOpt (h : UserId → Option ℚ) (u : UserId) (t : ℚ) :
    updateTHist h u t = updateTOpt h u (some t) := rfl

theorem swStep_char (s : SlidingWindowRateLimiter) (op : SWOp) (u : UserId) (t : ℚ) :
    (swStep s (op, u, t)).1 = (swEntryStep op s.window_size s.max_requests t (s.history u)).1 ∧
    ((swStep s (op, u, t)).2).history =
      updateHist s.history u (swEntryStep op s.window_size s.max_requests t (s.history u)).2 ∧
    ((swStep s (op, u, t)).2).window_size = s.window_size ∧
    ((swStep s (op, u, t)).2).max_requests = s.max_requests := by
  cases op with
  | canSend =>
      simp only [swStep, swEntryStep, can_send_char]
      cases hce : canSendEntry s.window_size s.max_requests t (s.history u) with
      | none => simp [updateHist_self]
      | some p =>
          obtain ⟨b, e₂⟩ := p
          simp
  | record =>
      simp only [swStep, swEntryStep, record_char]
      cases hre : recordEntry s.window_size s.max_requests t (s.history u) with
      | none => simp [updateHist_self]
      | some p =>
          obtain ⟨b, e₂⟩ := p
          simp
  | timeUntil =>
      simp only [swStep, swEntryStep, timeUntil_char]
      cases hte : timeUntilEntry s.window_size t (s.history u) with
      | none => simp [updateHist_self]
      | some p =>
          obtain ⟨q, e₂⟩ := p
          simp

theorem swStep_frame (s : SlidingWindowRateLimiter) (op : SWOp) (u : UserId) (t : ℚ)
    (v : UserId) (hv : v ≠ u) :
    ((swStep s (op, u, t)).2).history v = s.history v := by
  rw [(swStep_char s op u t).2.1]
  exact updateHist_apply_other _ _ _ _ hv

theorem swStep_congr (s s₃ : SlidingWindowRateLimiter) (op : SWOp) (u : UserId) (t : ℚ)
    (hw : s.window_size = s₃.window_size) (hm : s.max_requests = s₃.max_requests)
    (he : s.history u = s₃.history u) :
    (swStep s (op, u, t)).1 = (swStep s₃ (op, u, t)).1 ∧
    ((swStep s (op, u, t)).2).history u = ((swStep s₃ (op, u, t)).2).history u := by
  obtain ⟨h1, h2, h3, h4⟩ := swStep_char s op u t
  obtain ⟨g1, g2, g3, g4⟩ := swStep_char s₃ op u t
  rw [h1, g1, h2, g2, hw, hm, he]
  exact ⟨rfl, by simp [updateHist_apply_same]⟩

theorem tr_can_send_char (s : ThrottlingRateLimiter) (u : UserId) (t : ℚ) :
    s.can_send_message u t = trCanSendEntry s.min_interval t (s.history u) := by
  cases h : s.history u <;>
    simp [ThrottlingRateLimiter.can_send_message, trCanSendEntry, h]

theorem tr_timeUntil_char (s : ThrottlingRateLimiter) (u : UserId) (t : ℚ) :
    s.time_until_next_allowed u t = trTimeUntilEntry s.min_interval t (s.history u) := by
  cases h : s.history u <;>
    simp [ThrottlingRateLimiter.time_until_next_allowed, trTimeUntilEntry, h]

theorem trStep_char (s : ThrottlingRateLimiter) (op : TROp) (u : UserId) (t : ℚ) :
    (trStep s (op, u, t)).1 = (trEntryStep op s.min_interval t (s.history u)).1 ∧
    ((trStep s (op, u, t)).2).history =
      updateTOpt s.history u (trEntryStep op s.min_interval t (s.history u)).2 ∧
    ((trStep s (op, u, t)).2).min_interval = s.min_interval := by
  cases op with
  | canSend =>
      simp only [trStep, trEntryStep]
      refine ⟨by rw [tr_can_send_char], by simp [updateTOpt_self], trivial⟩
  | record =>
      simp only [trStep, trEntryStep, ThrottlingRateLimiter.record_message,
        tr_can_send_char]
      by_cases hc : trCanSendEntry s.min_interval t (s.history u) = true
      · simp [hc, updateTHist_eq_updateTOpt]
      · simp [hc, updateTOpt_self]
  | timeUntil =>
      simp only [trStep, trEntryStep]
      refine ⟨by rw [tr_timeUntil_char], by simp [updateTOpt_self], trivial⟩

theorem trStep_frame (s : ThrottlingRateLimiter) (op : TROp) (u : UserId) (t : ℚ)
    (v : UserId) (hv : v ≠ u) :
    ((trStep s (op, u, t)).2).history v = s.history v := by
  rw [(trStep_char s op u t).2.1]
  exact updateTOpt_apply_other _ _ _ _ hv

theorem trStep_congr (s s₃ : ThrottlingRateLimiter) (op : TROp) (u : UserId) (t : ℚ)
    (hw : s.min_interval = s₃.min_interval) (he : s.history u = s₃.history u) :
    (trStep s (op, u, t)).1 = (trStep s₃ (op, u, t)).1 ∧
    ((trStep s (op, u, t)).2).history u = ((trStep s₃ (op, u, t)).2).history u := by
  obtain ⟨h1, h2, h3⟩ := trStep_char s op u t
  obtain ⟨g1, g2, g3⟩ := trStep_char s₃ op u t
  rw [h1, g1, h2, g2, hw, he]
  exact ⟨rfl, by simp [updateTOpt_apply_same]⟩

theorem swRun_agree (A : UserId) (ops : List (SWOp × UserId × ℚ)) :
    ∀ (s s₃ : SlidingWindowRateLimiter),
      s.window_size = s₃.window_size → s.max_requests = s₃.max_requests →
      (∀ v, v ≠ A → s.history v = s₃.history v) →
      (swRunOut s ops).filter (fun p => !(p.1 == A)) =
        swRunOut s₃ (ops.filter (fun o => !(o.2.1 == A))) ∧
      ∀ v, v ≠ A → (swRunState s ops).history v =
        (swRunState s₃ (ops.filter (fun o => !(o.2.1 == A)))).history v := by
  induction ops with
  | nil =>
      intro s s₃ hw hm hh
      exact ⟨rfl, hh⟩
  | cons o os ih =>
      intro s s₃ hw hm hh
      obtain ⟨op, u, t⟩ := o
      have hsc := swStep_char s op u t
      by_cases hu : u = A
      · have hfr : ∀ v, v ≠ A → ((swStep s (op, u, t)).2).history v = s.history v := by
          intro v hv
          exact swStep_frame s op u t v (by rw [hu]; exact hv)
        have hnext := ih ((swStep s (op, u, t)).2) s₃
          (hsc.2.2.1.trans hw) (hsc.2.2.2.trans hm)
          (fun v hv => (hfr v hv).trans (hh v hv))
        constructor
        · simpa [swRunOut, List.filter_cons, hu] using hnext.1
        · intro v hv
          simpa [swRunState, List.filter_cons, hu] using hnext.2 v hv
      · have hbeq : (u == A) = false := beq_eq_false_iff_ne.mpr hu
        have hcong := swStep_congr s s₃ op u t hw hm (hh u hu)
        have hsc₃ := swStep_char s₃ op u t
        have hagree : ∀ v, v ≠ A → ((swStep s (op, u, t)).2).history v =
            ((swStep s₃ (op, u, t)).2).history v := by
          intro v hv
          by_cases hvu : v = u
          · rw [hvu]; exact hcong.2
          · rw [swStep_frame s op u t v hvu, swStep_frame s₃ op u t v hvu]
            exact hh v hv
        have hnext := ih ((swStep s (op, u, t)).2) ((swStep s₃ (op, u, t)).2)
          (hsc.2.2.1.trans (hw.trans hsc₃.2.2.1.symm))
          (hsc.2.2.2.trans (hm.trans hsc₃.2.2.2.symm)) hagree
        constructor
        · simp only [swRunOut, List.filter_cons]
          simp only [hbeq, Bool.not_false, if_true]
          rw [hcong.1, hnext.1]
          rfl
        · intro v hv
          simp only [swRunState, List.filter_cons]
          simp only [hbeq, Bool.not_false, if_true]
          exact hnext.2 v hv

theorem trRun_agree (A : UserId) (ops : List (TROp × UserId × ℚ)) :
    ∀ (s s₃ : ThrottlingRateLimiter),
      s.min_interval = s₃.min_interval →
      (∀ v, v ≠ A → s.history v = s₃.history v) →
      (trRunOut s ops).filter (fun p => !(p.1 == A)) =
        trRunOut s₃ (ops.filter (fun o => !(o.2.1 == A))) ∧
      ∀ v, v ≠ A → (trRunState s ops).history v =
        (trRunState s₃ (ops.filter (fun o => !(o.2.1 == A)))).history v := by
  induction ops with
  | nil =>
      intro s s₃ hw hh
      exact ⟨rfl, hh⟩
  | cons o os ih =>
      intro s s₃ hw hh
      obtain ⟨op, u, t⟩ := o
      have hsc := trStep_char s op u t
      by_cases hu : u = A
      · have hfr : ∀ v, v ≠ A → ((trStep s (op, u, t)).2).history v = s.history v := by
          intro v hv
          exact trStep_frame s op u t v (by rw [hu]; exact hv)
        have hnext := ih ((trStep s (op, u, t)).2) s₃
          (hsc.2.2.trans hw)
          (fun v hv => (hfr v hv).trans (hh v hv))
        constructor
        · simpa [trRunOut, List.filter_cons, hu] using hnext.1
        · intro v hv
          simpa [trRunState, List.filter_cons, hu] using hnext.2 v hv
      · have hbeq : (u == A) = false := beq_eq_false_iff_ne.mpr hu
        have hcong := trStep_congr s s₃ op u t hw (hh u hu)
        have hsc₃ := trStep_char s₃ op u t
        have hagree : ∀ v, v ≠ A → ((trStep s (op, u, t)).2).history v =
            ((trStep s₃ (op, u, t)).2).history v := by
          intro v hv
          by_cases hvu : v = u
          · rw [hvu]; exact hcong.2
          · rw [trStep_frame s op u t v hvu, trStep_frame s₃ op u t v hvu]
            exact hh v hv
        have hnext := ih ((trStep s (op, u, t)).2) ((trStep s₃ (op, u, t)).2)
          (hsc.2.2.trans (hw.trans hsc₃.2.2.symm)) hagree
        constructor
        · simp only [trRunOut, List.filter_cons]
          simp only [hbeq, Bool.not_false, if_true]
          rw [hcong.1, hnext.1]
          rfl
        · intro v hv
          simp only [trRunState, List.filter_cons]
          simp only [hbeq, Bool.not_false, if_true]
          exact hnext.2 v hv

/-- C9: distinct users are fully independent in both limiters.  For any
trace of public operations, deleting every operation issued by user A
changes neither the sequence of results observed by a different user B
nor B's entry in the history dict of the final state. -/
theorem claim_C9 (A B : UserId) (hAB : A ≠ B) :
    (∀ (s : SlidingWindowRateLimiter) (ops : List (SWOp × UserId × ℚ)),
      (swRunOut s ops).filter (fun p => p.1 == B) =
        (swRunOut s (ops.filter (fun o => !(o.2.1 == A)))).filter (fun p => p.1 == B) ∧
      (swRunState s ops).history B =
        (swRunState s (ops.filter (fun o => !(o.2.1 == A)))).history B) ∧
    (∀ (s : ThrottlingRateLimiter) (ops : List (TROp × UserId × ℚ)),
      (trRunOut s ops).filter (fun p => p.1 == B) =
        (trRunOut s (ops.filter (fun o => !(o.2.1 == A)))).filter (fun p => p.1 == B) ∧
      (trRunState s ops).history B =
        (trRunState s (ops.filter (fun o => !(o.2.1 == A)))).history B) := by
  have hBA : B ≠ A := fun h => hAB h.symm
  have hBAf : (B == A) = false := beq_eq_false_iff_ne.mpr hBA
  constructor
  · intro s ops
    have hmain := swRun_agree A ops s s rfl rfl (fun v hv => rfl)
    constructor
    · have hsplit : (swRunOut s ops).filter (fun p => p.1 == B) =
          ((swRunOut s ops).filter (fun p => !(p.1 == A))).filter (fun p => p.1 == B) := by
        rw [List.filter_filter]
        apply List.filter_congr
        intro a ha
        by_cases hb : a.1 = B
        · simp [hb, hBAf]
        · simp [hb]
      rw [hsplit, hmain.1]
    · exact hmain.2 B hBA
  · intro s ops
    have hmain := trRun_agree A ops s s rfl (fun v hv => rfl)
    constructor
    · have hsplit : (trRunOut s ops).filter (fun p => p.1 == B) =
          ((trRunOut s ops).filter (fun p => !(p.1 == A))).filter (fun p => p.1 == B) := by
        rw [List.filter_filter]
        apply List.filter_congr
        intro a ha
        by_cases hb : a.1 = B
        · simp [hb, hBAf]
        · simp [hb]
      rw [hsplit, hmain.1]
    · exact hmain.2 B hBA

/-- C9 witness: user "A" saturating swDemo with a record at time 0 does
not change the result or final entry of user "B"'s record at time 1. -/
theorem claim_C9_witness :
    (swRunOut swDemo [(SWOp.record, "A", 0), (SWOp.record, "B", 1)]).filter
        (fun p => p.1 == "B") =
      (swRunOut swDemo ([(SWOp.record, "A", 0), (SWOp.record, "B", 1)].filter
          (fun o => !(o.2.1 == "A")))).filter (fun p => p.1 == "B") ∧
    (swRunState swDemo [(SWOp.record, "A", 0), (SWOp.record, "B", 1)]).history "B" =
      (swRunState swDemo ([(SWOp.record, "A", 0), (SWOp.record, "B", 1)].filter
          (fun o => !(o.2.1 == "A")))).history "B" :=
  (claim_C9 "A" "B" (by decide)).1 swDemo [(SWOp.record, "A", 0), (SWOp.record, "B", 1)]

theorem sublist_of_append_left_disjoint (zs d r : List ℚ)
    (hsub : List.Sublist zs (d ++ r)) (hd : ∀ x ∈ zs, x ∉ d) :
    List.Sublist zs r := by
  induction d with
  | nil => simpa using hsub
  | cons a d ih =>
      rw [List.cons_append] at hsub
      cases hsub with
      | cons a2 h =>
          exact ih h (fun x hx hmem => hd x hx (List.mem_cons_of_mem a hmem))
      | cons₂ a2 h =>
          exact absurd (List.mem_cons_self a d) (hd a (List.mem_cons_self a _))

theorem sublist_dropWhile_of_le (c : ℚ) (zs l : List ℚ)
    (hsub : List.Sublist zs l) (hz : ∀ x ∈ zs, c ≤ x) :
    List.Sublist zs (l.dropWhile (fun x => decide (x < c))) := by
  have hsplit : l.takeWhile (fun x => decide (x < c)) ++
      l.dropWhile (fun x => decide (x < c)) = l :=
    List.takeWhile_append_dropWhile _ _
  rw [← hsplit] at hsub
  apply sublist_of_append_left_disjoint _ _ _ hsub
  intro x hx hmem
  have hxc := List.mem_takeWhile_imp hmem
  rw [decide_eq_true_eq] at hxc
  exact absurd (hz x hx) (not_le_of_lt hxc)

theorem cleanupEntry_eq_none (w now : ℚ) (e : Option (List ℚ)) :
    cleanupEntry w now e = none ↔ e = none := by
  cases e with
  | none => simp [cleanupEntry]
  | some l =>
      simp only [cleanupEntry]
      split <;> simp

theorem record_none_iff (s : SlidingWindowRateLimiter) (u : UserId) (now : ℚ) :
    s.record_message u now = none ↔ s.history u = none := by
  rw [record_char]
  simp [recordEntry, canSendEntry, Option.map_eq_none', cleanupEntry_eq_none]

theorem canSendEntry_fst (w : ℚ) (m : ℕ) (now : ℚ) (e : Option (List ℚ))
    (q : Bool × Option (List ℚ)) (h : canSendEntry w m now e = some q) :
    q.1 = match q.2 with | some l => decide (l.length < m) | none => true := by
  unfold canSendEntry at h
  cases hce : cleanupEntry w now e with
  | none => rw [hce] at h; cases h
  | some e₂ =>
      rw [hce] at h
      simp only [Option.map_some', Option.some.injEq] at h
      subst h
      cases e₂ <;> rfl

theorem record_cases (s : SlidingWindowRateLimiter) (u : UserId) (t : ℚ) (b : Bool)
    (s₂ : SlidingWindowRateLimiter) (hr : s.record_message u t = some (b, s₂)) :
    s₂.window_size = s.window_size ∧ s₂.max_requests = s.max_requests ∧
    ∃ l₀, s.history u = some l₀ ∧
      ((b = true ∧ l₀.dropWhile (fun x => decide (x < t - s.window_size)) = [] ∧
          s₂.history u = some [t]) ∨
       (b = true ∧ l₀.dropWhile (fun x => decide (x < t - s.window_size)) ≠ [] ∧
          decide ((l₀.dropWhile (fun x => decide (x < t - s.window_size))).length
            < s.max_requests) = true ∧
          s₂.history u =
            some (l₀.dropWhile (fun x => decide (x < t - s.window_size)) ++ [t])) ∨
       (b = false ∧ l₀.dropWhile (fun x => decide (x < t - s.window_size)) ≠ [] ∧
          decide ((l₀.dropWhile (fun x => decide (x < t - s.window_size))).length
            < s.max_requests) = false ∧
          s₂.history u = some (l₀.dropWhile (fun x => decide (x < t - s.window_size))))) := by
  rw [record_char] at hr
  cases hre : recordEntry s.window_size s.max_requests t (s.history u) with
  | none => rw [hre] at hr; cases hr
  | some p =>
      rw [hre] at hr
      simp only [Option.map_some', Option.some.injEq, Prod.mk.injEq] at hr
      obtain ⟨hb, hs₂⟩ := hr
      subst hs₂
      refine ⟨rfl, rfl, ?_⟩
      obtain ⟨q, hq, hp⟩ := recordEntry_some _ _ _ _ _ hre
      have hq1 := canSendEntry_fst _ _ _ _ _ hq
      have hcl := canSendEntry_some _ _ _ _ _ hq
      cases hsu : s.history u with
      | none =>
          rw [hsu, (cleanupEntry_eq_none _ _ _).mpr rfl] at hcl
          cases hcl
      | some l₀ =>
          refine ⟨l₀, rfl, ?_⟩
          rw [hsu] at hcl
          rcases cleanupEntry_some_cases _ _ _ _ hcl with ⟨hq2, hdw⟩ | ⟨hq2, hne⟩
          · left
            rw [hq2] at hq1
            simp only at hq1
            rw [hp, if_pos hq1] at hb
            refine ⟨hb.symm, hdw, ?_⟩
            show updateHist s.history u p.2 u = some [t]
            rw [updateHist_apply_same, hp, if_pos hq1]
            simp [hq2]
          · by_cases hlen : decide ((l₀.dropWhile
                (fun x => decide (x < t - s.window_size))).length < s.max_requests) = true
            · right; left
              rw [hq2] at hq1
              simp only at hq1
              rw [hlen] at hq1
              rw [hp, if_pos hq1] at hb
              refine ⟨hb.symm, hne, hlen, ?_⟩
              show updateHist s.history u p.2 u = _
              rw [updateHist_apply_same, hp, if_pos hq1]
              simp [hq2]
            · right; right
              rw [hq2] at hq1
              simp only at hq1
              have hlenf : decide ((l₀.dropWhile
                  (fun x => decide (x < t - s.window_size))).length < s.max_requests) = false :=
                Bool.eq_false_iff.mpr hlen
              rw [hlenf] at hq1
              rw [hp, if_neg (by simp [hq1])] at hb
              refine ⟨hb.symm, hne, hlenf, ?_⟩
              show updateHist s.history u p.2 u = _
              rw [updateHist_apply_same, hp, if_neg (by simp [hq1]), hq2]

theorem runRecords_key (u : UserId) (w : ℚ) (m : ℕ) (hw0 : 0 ≤ w) (hm0 : 0 < m)
    (ts : List ℚ) :
    ∀ (s : SlidingWindowRateLimiter) (T : ℚ) (S : List ℚ),
      s.window_size = w → s.max_requests = m →
      (T :: ts).Chain' (fun a b => a ≤ b) →
      List.Sublist (S.filter (fun x => decide (T - w ≤ x))) ((s.history u).getD []) →
      ∀ (L₁ L₂ : List (ℚ × Option Bool)) (c : ℚ) (r : Option Bool),
        ts.zip (runRecords u s ts) = L₁ ++ (c, r) :: L₂ →
        (r = some true →
          (S.filter (fun x => decide (c - w ≤ x))).length +
            (L₁.filter (fun p => decide (c - w ≤ p.1) && (p.2 == some true))).length < m) ∧
        (m ≤ (S.filter (fun x => decide (c - w ≤ x))).length +
            (L₁.filter (fun p => decide (c - w ≤ p.1) && (p.2 == some true))).length →
          r = some false) := by
  induction ts with
  | nil =>
      intro s T S hws hms hch hS L₁ L₂ c r hzip
      simp [runRecords] at hzip
  | cons t ts ih =>
      intro s T S hws hms hch hS L₁ L₂ c r hzip
      have hTt : T ≤ t := (List.chain'_cons.mp hch).1
      have hch' : (t :: ts).Chain' (fun a b => a ≤ b) := (List.chain'_cons.mp hch).2
      have hmono : List.Sublist (S.filter (fun x => decide (t - w ≤ x)))
          (S.filter (fun x => decide (T - w ≤ x))) := by
        apply List.monotone_filter_right
        intro a ha
        rw [decide_eq_true_eq] at ha ⊢
        exact le_trans (sub_le_sub_right hTt w) ha
      have hSt : List.Sublist (S.filter (fun x => decide (t - w ≤ x)))
          ((s.history u).getD []) := hmono.trans hS
      cases hrec : s.record_message u t with
      | none =>
          have hnone : s.history u = none := (record_none_iff s u t).mp hrec
          have hS0 : S.filter (fun x => decide (t - w ≤ x)) = [] := by
            rw [hnone] at hSt
            simp only [Option.getD_none] at hSt
            exact List.sublist_nil.mp hSt
          simp only [runRecords] at hzip
          rw [hrec] at hzip
          simp only [List.zip_cons_cons] at hzip
          cases L₁ with
          | nil =>
              simp only [List.nil_append, List.cons.injEq, Prod.mk.injEq] at hzip
              obtain ⟨⟨hc, hr⟩, htl⟩ := hzip
              constructor
              · intro htrue
                rw [← hr] at htrue
                cases htrue
              · intro hle
                exfalso
                rw [← hc, hS0] at hle
                simp only [List.length_nil, List.filter_nil, Nat.add_zero] at hle
                omega
          | cons hd L₁2 =>
              simp only [List.cons_append, List.cons.injEq] at hzip
              obtain ⟨hhd, htl⟩ := hzip
              have hnext := ih s t S hws hms hch' hSt L₁2 L₂ c r htl
              rw [← hhd]
              have hbnone : ((none : Option Bool) == some true) = false := rfl
              constructor
              · intro htrue
                have hlt := hnext.1 htrue
                simpa only [List.filter_cons, hbnone, Bool.and_false, Bool.false_eq_true,
                  if_false] using hlt
              · intro hle
                apply hnext.2
                simpa only [List.filter_cons, hbnone, Bool.and_false, Bool.false_eq_true,
                  if_false] using hle
      | some br =>
          obtain ⟨b, s₂⟩ := br
          obtain ⟨hw2, hm2, l₀, hl₀, hcase⟩ := record_cases s u t b s₂ hrec
          rw [hws, hms] at hcase
          simp only [runRecords] at hzip
          rw [hrec] at hzip
          simp only [List.zip_cons_cons] at hzip
          have hgetD : (s.history u).getD [] = l₀ := by rw [hl₀]; rfl
          have hzs : List.Sublist (S.filter (fun x => decide (t - w ≤ x)))
              (l₀.dropWhile (fun x => decide (x < t - w))) := by
            apply sublist_dropWhile_of_le
            · rw [hgetD] at hSt; exact hSt
            · intro x hx
              have hmem := List.of_mem_filter hx
              rwa [decide_eq_true_eq] at hmem
          have hcond : decide (t - w ≤ t) = true := by
            rw [decide_eq_true_eq]; exact sub_le_self t hw0
          have hfil : List.filter (fun x => decide (t - w ≤ x)) [t] = [t] := by
            simp only [List.filter_cons, hcond, eq_self_iff_true, if_true, List.filter_nil]
          have hbeq2 : ((some true : Option Bool) == some true) = true := rfl
          rcases hcase with ⟨hbt, hdwe, hs₂u⟩ | ⟨hbt, hdwne, hlen, hs₂u⟩ |
            ⟨hbt, hdwne, hlen, hs₂u⟩
          · -- admitted with the entry deleted and recreated as [t]
            subst hbt
            have hzs0 : S.filter (fun x => decide (t - w ≤ x)) = [] := by
              rw [hdwe] at hzs
              exact List.sublist_nil.mp hzs
            cases L₁ with
            | nil =>
                simp only [List.nil_append, List.cons.injEq, Prod.mk.injEq] at hzip
                obtain ⟨⟨hc, hr⟩, htl⟩ := hzip
                constructor
                · intro htrue
                  rw [← hc, hzs0]
                  simpa using hm0
                · intro hle
                  exfalso
                  rw [← hc, hzs0] at hle
                  simp only [List.length_nil, List.filter_nil, Nat.add_zero] at hle
                  omega
            | cons hd L₁2 =>
                simp only [List.cons_append, List.cons.injEq] at hzip
                obtain ⟨hhd, htl⟩ := hzip
                have hS2 : List.Sublist ((S ++ [t]).filter (fun x => decide (t - w ≤ x)))
                    ((s₂.history u).getD []) := by
                  rw [hs₂u]
                  simp only [Option.getD_some, List.filter_append, hzs0, List.nil_append]
                  rw [hfil]
                have hnext := ih s₂ t (S ++ [t]) (hw2.trans hws) (hm2.trans hms) hch' hS2
                  L₁2 L₂ c r htl
                have hcnt : ((S ++ [t]).filter (fun x => decide (c - w ≤ x))).length +
                      (L₁2.filter (fun p => decide (c - w ≤ p.1) && (p.2 == some true))).length =
                    (S.filter (fun x => decide (c - w ≤ x))).length +
                      (((t, some true) :: L₁2).filter
                        (fun p => decide (c - w ≤ p.1) && (p.2 == some true))).length := by
                  cases hct : decide (c - w ≤ t) <;>
                    · simp only [List.filter_append, List.filter_cons, List.filter_nil,
                        List.length_append, List.length_cons, List.length_nil, hct, hbeq2,
                        Bool.and_true, Bool.false_eq_true, if_false, eq_self_iff_true, if_true]
                      omega
                rw [← hhd]
                constructor
                · intro htrue
                  have hlt := hnext.1 htrue
                  omega
                · intro hle
                  apply hnext.2
                  omega
          · -- admitted by count, timestamp appended to the surviving deque
            subst hbt
            rw [decide_eq_true_eq] at hlen
            cases L₁ with
            | nil =>
                simp only [List.nil_append, List.cons.injEq, Prod.mk.injEq] at hzip
                obtain ⟨⟨hc, hr⟩, htl⟩ := hzip
                have hle2 := hzs.length_le
                constructor
                · intro htrue
                  rw [← hc]
                  simp only [List.filter_nil, List.length_nil, Nat.add_zero]
                  omega
                · intro hle
                  exfalso
                  rw [← hc] at hle
                  simp only [List.filter_nil, List.length_nil, Nat.add_zero] at hle
                  omega
            | cons hd L₁2 =>
                simp only [List.cons_append, List.cons.injEq] at hzip
                obtain ⟨hhd, htl⟩ := hzip
                have hS2 : List.Sublist ((S ++ [t]).filter (fun x => decide (t - w ≤ x)))
                    ((s₂.history u).getD []) := by
                  rw [hs₂u]
                  simp only [Option.getD_some, List.filter_append]
                  rw [hfil]
                  exact List.Sublist.append hzs (List.Sublist.refl [t])
                have hnext := ih s₂ t (S ++ [t]) (hw2.trans hws) (hm2.trans hms) hch' hS2
                  L₁2 L₂ c r htl
                have hcnt : ((S ++ [t]).filter (fun x => decide (c - w ≤ x))).length +
                      (L₁2.filter (fun p => decide (c - w ≤ p.1) && (p.2 == some true))).length =
                    (S.filter (fun x => decide (c - w ≤ x))).length +
                      (((t, some true) :: L₁2).filter
                        (fun p => decide (c - w ≤ p.1) && (p.2 == some true))).length := by
                  cases hct : decide (c - w ≤ t) <;>
                    · simp only [List.filter_append, List.filter_cons, List.filter_nil,
                        List.length_append, List.length_cons, List.length_nil, hct, hbeq2,
                        Bool.and_true, Bool.false_eq_true, if_false, eq_self_iff_true, if_true]
                      omega
                rw [← hhd]
                constructor
                · intro htrue
                  have hlt := hnext.1 htrue
                  omega
                · intro hle
                  apply hnext.2
                  omega
          · -- denied: the deque is full, nothing appended
            subst hbt
            cases L₁ with
            | nil =>
                simp only [List.nil_append, List.cons.injEq, Prod.mk.injEq] at hzip
                obtain ⟨⟨hc, hr⟩, htl⟩ := hzip
                constructor
                · intro htrue
                  rw [← hr] at htrue
                  simp at htrue
                · intro hle
                  exact hr.symm
            | cons hd L₁2 =>
                simp only [List.cons_append, List.cons.injEq] at hzip
                obtain ⟨hhd, htl⟩ := hzip
                have hS2 : List.Sublist (S.filter (fun x => decide (t - w ≤ x)))
                    ((s₂.history u).getD []) := by
                  rw [hs₂u]
                  exact hzs
                have hnext := ih s₂ t S (hw2.trans hws) (hm2.trans hms) hch' hS2
                  L₁2 L₂ c r htl
                rw [← hhd]
                have hbfalse : ((some false : Option Bool) == some true) = false := rfl
                constructor
                · intro htrue
                  have hlt := hnext.1 htrue
                  simpa only [List.filter_cons, hbfalse, Bool.and_false, Bool.false_eq_true,
                    if_false] using hlt
                · intro hle
                  apply hnext.2
                  simpa only [List.filter_cons, hbfalse, Bool.and_false, Bool.false_eq_true,
                    if_false] using hle

theorem trailing_window_bound (w : ℚ) (m : ℕ) (L : List (ℚ × Option Bool))
    (hkey : ∀ (L₁ L₂ : List (ℚ × Option Bool)) (c : ℚ) (r : Option Bool),
      L = L₁ ++ (c, r) :: L₂ → r = some true →
      (L₁.filter (fun p => decide (c - w ≤ p.1) && (p.2 == some true))).length < m) :
    ∀ T, (L.filter (fun p => decide (T - w ≤ p.1) && decide (p.1 ≤ T) &&
        (p.2 == some true))).length ≤ m := by
  revert hkey
  induction L using List.reverseRecOn with
  | nil =>
      intro hkey T
      simp
  | append_singleton L2 a ih =>
      intro hkey T
      have hkey2 : ∀ (L₁ L₂ : List (ℚ × Option Bool)) (c : ℚ) (r : Option Bool),
          L2 = L₁ ++ (c, r) :: L₂ → r = some true →
          (L₁.filter (fun p => decide (c - w ≤ p.1) && (p.2 == some true))).length < m := by
        intro L₁ L₂ c r hsplit htrue
        exact hkey L₁ (L₂ ++ [a]) c r
          (by rw [hsplit, List.append_assoc, List.cons_append]) htrue
      rw [List.filter_append]
      by_cases hcnt : (decide (T - w ≤ a.1) && decide (a.1 ≤ T) && (a.2 == some true)) = true
      · have hparts := (Bool.and_eq_true _ _).mp hcnt
        have ha2 : a.2 = some true := eq_of_beq hparts.2
        have haT : a.1 ≤ T := by
          have h2 := ((Bool.and_eq_true _ _).mp hparts.1).2
          rwa [decide_eq_true_eq] at h2
        have hlast : (L2.filter
            (fun p => decide (a.1 - w ≤ p.1) && (p.2 == some true))).length < m :=
          hkey L2 [] a.1 a.2 rfl ha2
        have hsub : List.Sublist
            (L2.filter (fun p => decide (T - w ≤ p.1) && decide (p.1 ≤ T) &&
              (p.2 == some true)))
            (L2.filter (fun p => decide (a.1 - w ≤ p.1) && (p.2 == some true))) := by
          apply List.monotone_filter_right
          intro p hp
          rw [Bool.and_eq_true, Bool.and_eq_true] at hp
          rw [Bool.and_eq_true]
          refine ⟨?_, hp.2⟩
          have h1 := hp.1.1
          rw [decide_eq_true_eq] at h1 ⊢
          exact le_trans (sub_le_sub_right haT w) h1
        have hlen := hsub.length_le
        have hsingle := List.length_filter_le
          (fun p : ℚ × Option Bool => decide (T - w ≤ p.1) && decide (p.1 ≤ T) &&
            (p.2 == some true)) [a]
        rw [List.length_append]
        simp only [List.length_singleton] at hsingle
        omega
      · have hfa : ([a].filter (fun p => decide (T - w ≤ p.1) && decide (p.1 ≤ T) &&
            (p.2 == some true))) = [] := by
          rw [List.filter_cons, if_neg hcnt]
          rfl
        rw [hfa, List.append_nil]
        exact ih hkey2 T

/-- C3: single-user rate limiting of the sliding window.  For any
starting state and any sequence of `record_message` calls for one user
at non-decreasing times (window `window_size ≥ 0`, capacity
`max_requests ≥ 1`): within any trailing interval `[T - window_size, T]`
at most `max_requests` of the calls return true, and any call whose
trailing window already contains `max_requests` earlier successes
returns false (not an error) — the `(m+1)`-th attempt inside the
interval fails. -/
theorem claim_C3 (s : SlidingWindowRateLimiter) (u : UserId) (ts : List ℚ)
    (hw : 0 ≤ s.window_size) (hm : 0 < s.max_requests)
    (hsorted : ts.Chain' (fun a b => a ≤ b)) :
    (∀ T, ((ts.zip (runRecords u s ts)).filter
        (fun p => decide (T - s.window_size ≤ p.1) && decide (p.1 ≤ T) &&
          (p.2 == some true))).length ≤ s.max_requests) ∧
    (∀ (L₁ L₂ : List (ℚ × Option Bool)) (c : ℚ) (r : Option Bool),
      ts.zip (runRecords u s ts) = L₁ ++ (c, r) :: L₂ →
      s.max_requests ≤ (L₁.filter
          (fun p => decide (c - s.window_size ≤ p.1) && (p.2 == some true))).length →
      r = some false) := by
  have hch : (ts.headD 0 :: ts).Chain' (fun a b => a ≤ b) := by
    cases ts with
    | nil => simp
    | cons a ts2 =>
        exact List.chain'_cons.mpr ⟨le_refl a, hsorted⟩
  have hkey := runRecords_key u s.window_size s.max_requests hw hm ts s (ts.headD 0) []
    rfl rfl hch (by simp)
  constructor
  · apply trailing_window_bound s.window_size s.max_requests
    intro L₁ L₂ c r hsplit htrue
    have hlt := (hkey L₁ L₂ c r hsplit).1 htrue
    simpa using hlt
  · intro L₁ L₂ c r hsplit hge
    apply (hkey L₁ L₂ c r hsplit).2
    simpa using hge

/-- C3 witness: the bound instantiated on a fresh limiter for two calls
of user "A" at times 0 and 1. -/
theorem claim_C3_witness :
    (∀ T, ((([(0 : ℚ), 1]).zip (runRecords "A" freshSW [0, 1])).filter
        (fun p => decide (T - freshSW.window_size ≤ p.1) && decide (p.1 ≤ T) &&
          (p.2 == some true))).length ≤ freshSW.max_requests) ∧
    (∀ (L₁ L₂ : List (ℚ × Option Bool)) (c : ℚ) (r : Option Bool),
      ([(0 : ℚ), 1]).zip (runRecords "A" freshSW [0, 1]) = L₁ ++ (c, r) :: L₂ →
      freshSW.max_requests ≤ (L₁.filter
          (fun p => decide (c - freshSW.window_size ≤ p.1) && (p.2 == some true))).length →
      r = some false) :=
  claim_C3 freshSW "A" [0, 1] (by norm_num [freshSW]) (by norm_num [freshSW])
    (by norm_num [List.chain'_cons, List.chain'_singleton])
